import Mathlib

/-!
Verification development for the ptext/borb PDF engine sources.

The Python sources are shallowly embedded: PDF primitive values become an
inductive type, dictionaries become association lists preserving insertion
order, stateful methods become explicit state-passing functions, and Python
exceptions become `Except` results.  External collaborators (codecs, the
Adobe glyph list, the CMap parser) that are consumed but not part of the
sampled sources are modelled from the specification and are marked as such
in their doc comments.
-/

namespace Borb

/-- PDF primitive values, embedded from `ptext.io.read.types`.  A `Page`
(`ptext.pdf.page.page.Page`) is a `Dictionary` subclass, so it is modelled
as a distinguished constructor that still carries dictionary entries.
Parent links and references are kept outside the value (structural equality
in the source ignores them). -/
inductive PDFValue where
  | name (s : String)
  | str (s : String)
  | number (n : Int)
  | bool (b : Bool)
  | null
  | array (xs : List PDFValue)
  | dict (entries : List (String × PDFValue))
  | page (entries : List (String × PDFValue))
deriving Repr

mutual

/-- Structural equality of PDF values (`__eq__` of the value types ignores
parent and reference bookkeeping, which this embedding keeps outside the
value anyway). -/
def PDFValue.beq : PDFValue → PDFValue → Bool
  | .name s, .name t => s == t
  | .str s, .str t => s == t
  | .number m, .number n => m == n
  | .bool x, .bool y => x == y
  | .null, .null => true
  | .array xs, .array ys => beqList xs ys
  | .dict es, .dict fs => beqEntries es fs
  | .page es, .page fs => beqEntries es fs
  | _, _ => false

/-- Elementwise structural equality of value lists. -/
def beqList : List PDFValue → List PDFValue → Bool
  | [], [] => true
  | x :: xs, y :: ys => x.beq y && beqList xs ys
  | _, _ => false

/-- Elementwise structural equality of association lists. -/
def beqEntries : List (String × PDFValue) → List (String × PDFValue) → Bool
  | [], [] => true
  | (k, v) :: es, (l, w) :: fs => k == l && v.beq w && beqEntries es fs
  | _, _ => false

end

mutual

theorem PDFValue.beq_iff : ∀ (a b : PDFValue), (PDFValue.beq a b = true) ↔ a = b
  | a, b => by
      cases a <;> cases b <;> simp [PDFValue.beq]
      case array.array xs ys => exact beqList_iff xs ys
      case dict.dict es fs => exact beqEntries_iff es fs
      case page.page es fs => exact beqEntries_iff es fs

theorem beqList_iff : ∀ (xs ys : List PDFValue), (beqList xs ys = true) ↔ xs = ys
  | [], [] => by simp [beqList]
  | [], _ :: _ => by simp [beqList]
  | _ :: _, [] => by simp [beqList]
  | x :: xs, y :: ys => by
      simp [beqList, PDFValue.beq_iff x y, beqList_iff xs ys]

theorem beqEntries_iff : ∀ (es fs : List (String × PDFValue)),
    (beqEntries es fs = true) ↔ es = fs
  | [], [] => by simp [beqEntries]
  | [], _ :: _ => by simp [beqEntries]
  | _ :: _, [] => by simp [beqEntries]
  | (k, v) :: es, (l, w) :: fs => by
      simp [beqEntries, PDFValue.beq_iff v w, beqEntries_iff es fs, and_assoc]

end

instance : DecidableEq PDFValue :=
  fun a b => decidable_of_iff _ (PDFValue.beq_iff a b)

/-- Lookup of a key in a Python dict modelled as an insertion-ordered
association list (keys are unique in a Python dict; first match). -/
def lookupDict : List (String × PDFValue) → String → Option PDFValue
  | [], _ => none
  | (k, v) :: rest, key => if k = key then some v else lookupDict rest key

/-- Item assignment on a Python dict: replace the value in place when the
key exists, append the new pair otherwise (insertion order preserved). -/
def dictSet : List (String × PDFValue) → String → PDFValue → List (String × PDFValue)
  | [], key, v => [(key, v)]
  | (k, w) :: rest, key, v =>
      if k = key then (k, v) :: rest else (k, w) :: dictSet rest key v

mutual

/-- Structural size of a PDF value, used as the termination measure of the
page-tree traversal. -/
def PDFValue.psize : PDFValue → Nat
  | .name _ => 1
  | .str _ => 1
  | .number _ => 1
  | .bool _ => 1
  | .null => 1
  | .array xs => 1 + psizeList xs
  | .dict es => 1 + psizeEntries es
  | .page es => 1 + psizeEntries es

/-- Total structural size of a list of PDF values. -/
def psizeList : List PDFValue → Nat
  | [] => 0
  | v :: rest => v.psize + psizeList rest

/-- Total structural size of the values of an association list. -/
def psizeEntries : List (String × PDFValue) → Nat
  | [] => 0
  | (_, v) :: rest => v.psize + psizeEntries rest

end

/-- Test used by `ReadRootDictionaryTransformer.transform`:
`isinstance(obj, Page)`. -/
def isPageV : PDFValue → Bool
  | .page _ => true
  | _ => false

/-- Kids of a node, per the guard in `ReadRootDictionaryTransformer.transform`:
the node is a `Dictionary` (a `Page` also is one), its `Type` entry equals
`Pages`, and it has a `Kids` entry that is a list.  Any other node
contributes no children. -/
def kidsOfEntries (es : List (String × PDFValue)) : List PDFValue :=
  match lookupDict es "Type", lookupDict es "Kids" with
  | some (.name t), some (.array ks) => if t = "Pages" then ks else []
  | _, _ => []

/-- Children pushed onto the worklist for a popped node. -/
def kidsOf : PDFValue → List PDFValue
  | .dict es => kidsOfEntries es
  | .page es => kidsOfEntries es
  | _ => []

theorem psizeList_append (a b : List PDFValue) :
    psizeList (a ++ b) = psizeList a + psizeList b := by
  induction a with
  | nil => simp [psizeList]
  | cons v rest ih => simp [psizeList, ih]; ring

theorem psize_pos (v : PDFValue) : 0 < v.psize := by
  cases v <;> simp [PDFValue.psize]

theorem lookup_le_psizeEntries (es : List (String × PDFValue)) (k : String)
    (v : PDFValue) (h : lookupDict es k = some v) : v.psize ≤ psizeEntries es := by
  induction es with
  | nil => simp [lookupDict] at h
  | cons e rest ih =>
      obtain ⟨k0, v0⟩ := e
      by_cases hk : k0 = k
      · simp [lookupDict, hk] at h
        subst h
        simp [psizeEntries]
      · simp [lookupDict, hk] at h
        have := ih h
        simp [psizeEntries]
        omega

theorem psizeList_kidsOfEntries_lt (es : List (String × PDFValue)) :
    psizeList (kidsOfEntries es) < 1 + psizeEntries es := by
  unfold kidsOfEntries
  split
  · rename_i t ks hT hK
    by_cases ht : t = "Pages"
    · simp only [ht, if_true]
      have := lookup_le_psizeEntries es "Kids" (.array ks) hK
      simp [PDFValue.psize] at this
      omega
    · simp only [ht, if_false]
      simp [psizeList]
  · simp [psizeList]

theorem psizeList_kidsOf_lt (v : PDFValue) : psizeList (kidsOf v) < v.psize := by
  cases v <;> simp [kidsOf, psizeList, PDFValue.psize]
  case dict es => exact psizeList_kidsOfEntries_lt es
  case page es => exact psizeList_kidsOfEntries_lt es

/-- Worklist loop of `ReadRootDictionaryTransformer.transform`, embedded
exactly as written: the loop pops the FRONT of the list (`pop(0)`), appends
a popped `Page` to the ordered output, and appends the kids of a `Pages`
dictionary at the BACK of the list, so the list behaves as a FIFO queue. -/
def flattenPages (work : List PDFValue) : List PDFValue :=
  match work with
  | [] => []
  | v :: rest =>
      (if isPageV v then [v] else []) ++ flattenPages (rest ++ kidsOf v)
termination_by psizeList work
decreasing_by
  simp [psizeList, psizeList_append]
  have := psizeList_kidsOf_lt v
  omega

/-- Rewrite of the `Pages` dictionary performed at the end of
`ReadRootDictionaryTransformer.transform`: `Kids` is replaced by the flat
page list and `Count` by its length.  Item assignment only succeeds on a
`Dictionary` (or its `Page` subclass). -/
def setPageListEntries (v : PDFValue) (flat : List PDFValue) : Option PDFValue :=
  match v with
  | .dict es => some (.dict (dictSet (dictSet es "Kids" (.array flat))
      "Count" (.number (Int.ofNat flat.length))))
  | .page es => some (.page (dictSet (dictSet es "Kids" (.array flat))
      "Count" (.number (Int.ofNat flat.length))))
  | _ => none

/-- Embedding of `ReadRootDictionaryTransformer` (guard `can_be_transformed`
plus `transform`): the object must be a dictionary with `Type = Catalog`;
its `Pages` entry seeds the worklist; afterwards `Kids` and `Count` of the
`Pages` dictionary are rewritten.  A missing `Pages` entry or a `Pages`
entry that cannot take item assignment is an error (`none`).  The generic
dictionary-transformer pass and listener attachment are identity in this
model (they do not alter the page structure). -/
def readRootDictionaryTransform (root : List (String × PDFValue)) :
    Option (List (String × PDFValue)) :=
  match lookupDict root "Type" with
  | some (.name "Catalog") =>
      match lookupDict root "Pages" with
      | none => none
      | some pagesObj =>
          let flat := flattenPages [pagesObj]
          match setPageListEntries pagesObj flat with
          | none => none
          | some pagesObj2 => some (dictSet root "Pages" pagesObj2)
  | _ => none

/-- Entries of a value that is a dictionary (or a `Page`). -/
def entriesOf : PDFValue → Option (List (String × PDFValue))
  | .dict es => some es
  | .page es => some es
  | _ => none

/-- A leaf page used in the concrete catalog example (pages are told apart
by a `Contents` entry). -/
def mkPage (i : Int) : PDFValue :=
  .page [("Type", .name "Page"), ("Contents", .number i)]

/-- The catalog of the end-to-end example:
`Pages.Kids = [Pages(Kids=[Page_A, Page_B]), Page_C]`. -/
def exampleCatalog : List (String × PDFValue) :=
  [("Type", .name "Catalog"),
   ("Pages", .dict
     [("Type", .name "Pages"),
      ("Kids", .array
        [.dict [("Type", .name "Pages"),
                ("Kids", .array [mkPage 1, mkPage 2])],
         mkPage 3])])]

theorem lookup_dictSet_self (d : List (String × PDFValue)) (k : String) (v : PDFValue) :
    lookupDict (dictSet d k v) k = some v := by
  induction d with
  | nil => simp [dictSet, lookupDict]
  | cons e rest ih =>
      obtain ⟨k0, v0⟩ := e
      by_cases hk : k0 = k
      · simp [dictSet, lookupDict, hk]
      · simp [dictSet, lookupDict, hk, ih]

theorem lookup_dictSet_ne (d : List (String × PDFValue)) (k k' : String) (v : PDFValue)
    (hne : k' ≠ k) : lookupDict (dictSet d k v) k' = lookupDict d k' := by
  have hkk : k ≠ k' := Ne.symm hne
  induction d with
  | nil => simp [dictSet, lookupDict, hkk]
  | cons e rest ih =>
      obtain ⟨k0, v0⟩ := e
      by_cases hk : k0 = k
      · subst hk
        simp [dictSet, lookupDict, hkk]
      · by_cases hk' : k0 = k'
        · simp [dictSet, lookupDict, hk, hk', hne]
        · simp [dictSet, lookupDict, hk, hk', ih]

theorem flattenPages_all_pages (w : List PDFValue) :
    ∀ p ∈ flattenPages w, isPageV p = true := by
  induction w using flattenPages.induct with
  | case1 => simp [flattenPages]
  | case2 v rest ih =>
      intro p hp
      rw [flattenPages] at hp
      rcases List.mem_append.1 hp with hmem | hmem
      · by_cases hv : isPageV v
        · simp [hv] at hmem
          subst hmem
          exact hv
        · simp [hv] at hmem
      · exact ih p hmem

/-- Claim C8: for every catalog dictionary accepted and processed by the
Catalog transformer, the rewritten `Pages` dictionary has a `Kids` array
containing only `Page` objects and a `Count` equal to its length. -/
theorem catalog_transform_kids_only_pages (root root' : List (String × PDFValue))
    (h : readRootDictionaryTransform root = some root') :
    ∃ pv es ks, lookupDict root' "Pages" = some pv ∧ entriesOf pv = some es ∧
      lookupDict es "Kids" = some (.array ks) ∧
      (∀ p ∈ ks, isPageV p = true) ∧
      lookupDict es "Count" = some (.number (Int.ofNat ks.length)) := by
  unfold readRootDictionaryTransform at h
  split at h
  · rename_i hty
    cases hp : lookupDict root "Pages" with
    | none => rw [hp] at h; exact absurd h (by simp)
    | some pagesObj =>
        rw [hp] at h
        simp only at h
        cases hset : setPageListEntries pagesObj (flattenPages [pagesObj]) with
        | none => rw [hset] at h; exact absurd h (by simp)
        | some pagesObj2 =>
            rw [hset] at h
            simp only [Option.some.injEq] at h
            subst h
            refine ⟨pagesObj2, ?_⟩
            unfold setPageListEntries at hset
            have hflat := flattenPages_all_pages [pagesObj]
            cases pagesObj with
            | dict es =>
                simp only [Option.some.injEq] at hset
                subst hset
                refine ⟨_, flattenPages [PDFValue.dict es], ?_, rfl, ?_, hflat, ?_⟩
                · exact lookup_dictSet_self root "Pages" _
                · rw [lookup_dictSet_ne _ _ _ _ (by decide)]
                  exact lookup_dictSet_self es "Kids" _
                · exact lookup_dictSet_self _ "Count" _
            | page es =>
                simp only [Option.some.injEq] at hset
                subst hset
                refine ⟨_, flattenPages [PDFValue.page es], ?_, rfl, ?_, hflat, ?_⟩
                · exact lookup_dictSet_self root "Pages" _
                · rw [lookup_dictSet_ne _ _ _ _ (by decide)]
                  exact lookup_dictSet_self es "Kids" _
                · exact lookup_dictSet_self _ "Count" _
            | name s => simp at hset
            | str s => simp at hset
            | number n => simp at hset
            | bool b => simp at hset
            | null => simp at hset
            | array xs => simp at hset
  · exact absurd h (by simp)

/-- Witness for C8 at the concrete example catalog. -/
theorem catalog_transform_kids_only_pages_witness :
    ∃ pv es ks, lookupDict
        [("Type", PDFValue.name "Catalog"),
         ("Pages", .dict
           [("Type", .name "Pages"),
            ("Kids", .array [mkPage 3, mkPage 1, mkPage 2]),
            ("Count", .number 3)])] "Pages" = some pv ∧
      entriesOf pv = some es ∧
      lookupDict es "Kids" = some (.array ks) ∧
      (∀ p ∈ ks, isPageV p = true) ∧
      lookupDict es "Count" = some (.number (Int.ofNat ks.length)) := by
  refine catalog_transform_kids_only_pages exampleCatalog _ ?_
  simp [readRootDictionaryTransform, exampleCatalog, lookupDict, flattenPages,
    kidsOf, kidsOfEntries, setPageListEntries, dictSet, isPageV, mkPage, psizeList]

/-- Claim C1: the transformed `Kids` list of the example catalog.  The
worklist is popped at the front and extended at the back, so the traversal
is breadth first, producing `[Page_C, Page_A, Page_B]` — not the
depth-first preorder `[Page_A, Page_B, Page_C]` stated by the
specification (the source comments themselves announce a DFS stack). -/
theorem c1_catalog_flattening_is_breadth_first :
    readRootDictionaryTransform exampleCatalog =
      some [("Type", .name "Catalog"),
            ("Pages", .dict
              [("Type", .name "Pages"),
               ("Kids", .array [mkPage 3, mkPage 1, mkPage 2]),
               ("Count", .number 3)])] ∧
    ([mkPage 3, mkPage 1, mkPage 2] : List PDFValue) ≠ [mkPage 1, mkPage 2, mkPage 3] := by
  constructor
  · simp [readRootDictionaryTransform, exampleCatalog, lookupDict, flattenPages,
      kidsOf, kidsOfEntries, setPageListEntries, dictSet, isPageV, mkPage]
  · decide

/-- Indirect-object reference.  The source `Reference` also carries a
generation number and a byte offset; `get_reference` only ever mints and
compares the object number, which is all the dedup claim mentions. -/
structure PRef where
  objectNumber : Nat
deriving DecidableEq, Repr

/-- An object handed to the write pipeline: a PDF value together with its
Python identity (`id(object)`); live objects have pairwise distinct
identities while structural equality only looks at the value. -/
structure WObj where
  oid : Nat
  val : PDFValue
deriving DecidableEq, Repr

/-- Hash of a string, used by `pdfHash`. -/
def strHash (s : String) : Nat :=
  s.toList.foldl (fun a c => a * 31 + c.toNat) 7

mutual

/-- Modelled from the spec: the structural hash of the value types
(`ptext.io.read.types`, not among the sampled sources) is stable across
runs and defined for every variant including nested dictionaries and
arrays, so equal values hash equally.  Any concrete structural function
has that property; this one mixes constructor tags with child hashes. -/
def pdfHash : PDFValue → Nat
  | .name s => 2 + 31 * strHash s
  | .str s => 3 + 31 * strHash s
  | .number n => 5 + 31 * n.natAbs + (if n < 0 then 1 else 0)
  | .bool b => if b then 11 else 13
  | .null => 17
  | .array xs => 19 + 31 * pdfHashList xs
  | .dict es => 23 + 31 * pdfHashEntries es
  | .page es => 29 + 31 * pdfHashEntries es

/-- Hash of a list of values. -/
def pdfHashList : List PDFValue → Nat
  | [] => 1
  | v :: rest => pdfHash v + 33 * pdfHashList rest

/-- Hash of an association list. -/
def pdfHashEntries : List (String × PDFValue) → Nat
  | [] => 1
  | (k, v) :: rest => strHash k + 7 * pdfHash v + 33 * pdfHashEntries rest

end

/-- State of `WriteTransformerContext` as far as `get_reference` reads and
writes it: the id-indexed registry, the hash-indexed registry (buckets keep
their refs, which in the source are read off the registered objects), and
the references assigned to objects so far (`set_reference` effects). -/
structure WriteCtx where
  byId : List (Nat × PRef)
  byHash : List (Nat × List (WObj × PRef))
  assigned : List (WObj × PRef)

/-- Fresh write context. -/
def emptyWriteCtx : WriteCtx := ⟨[], [], []⟩

/-- Bucket of a hash value (`context.indirect_objects_by_hash[h]`, empty
when the key is absent). -/
def bucketFor (bh : List (Nat × List (WObj × PRef))) (h : Nat) : List (WObj × PRef) :=
  (bh.lookup h).getD []

/-- Append an entry to the bucket of `h`, creating the bucket if needed
(the source appends to `indirect_objects_by_hash[h]` or stores `[object]`). -/
def bucketInsert : List (Nat × List (WObj × PRef)) → Nat → (WObj × PRef) →
    List (Nat × List (WObj × PRef))
  | [], h, e => [(h, [e])]
  | (h0, b) :: rest, h, e =>
      if h0 = h then (h0, b ++ [e]) :: rest else (h0, b) :: bucketInsert rest h e

/-- Object numbers of every registered indirect object, gathered from the
hash registry exactly as the minting code does. -/
def bucketNumbers : List (Nat × List (WObj × PRef)) → List Nat
  | [] => []
  | (_, b) :: rest => b.map (fun e => e.2.objectNumber) ++ bucketNumbers rest

/-- Increment past collisions: the `while obj_number in existing` loop.
The fuel (one more than the number of distinct used numbers) always
suffices, so this equals the Python loop's result. -/
def nextFreeFrom (used : List Nat) : Nat → Nat → Nat
  | n, 0 => n
  | n, fuel + 1 => if n ∈ used then nextFreeFrom used (n + 1) fuel else n

/-- Embedding of `WriteBaseTransformer.get_reference`: return the reference
of an already-seen identity; otherwise adopt the reference of a structurally
equal object in the hash bucket; otherwise mint a new object number (one
greater than the count of distinct registered numbers, incremented past
collisions) and record the object in both registries. -/
def getReference (o : WObj) (ctx : WriteCtx) : PRef × WriteCtx :=
  match ctx.byId.lookup o.oid with
  | some r => (r, ctx)
  | none =>
      let h := pdfHash o.val
      match (bucketFor ctx.byHash h).find? (fun e => decide (e.1.val = o.val)) with
      | some e => (e.2, { ctx with assigned := (o, e.2) :: ctx.assigned })
      | none =>
          let used := (bucketNumbers ctx.byHash).dedup
          let n := nextFreeFrom used (used.length + 1) (used.length + 1)
          let r : PRef := ⟨n⟩
          (r, { byId := (o.oid, r) :: ctx.byId,
                byHash := bucketInsert ctx.byHash h (o, r),
                assigned := (o, r) :: ctx.assigned })

/-- Register a batch of objects in one write context. -/
def registerAll (objs : List WObj) (ctx : WriteCtx) : WriteCtx :=
  objs.foldl (fun c o => (getReference o c).2) ctx

/-- Invariant tying the two registries together: bucket entries are
assigned and sit in the bucket of their own hash; every assigned reference
is represented in the bucket of its value's hash with the same object
number; and assigned references of structurally equal values share their
object number. -/
def CtxInv (ctx : WriteCtx) : Prop :=
  (∀ h, ∀ e ∈ bucketFor ctx.byHash h, e ∈ ctx.assigned ∧ pdfHash e.1.val = h) ∧
  (∀ a ∈ ctx.assigned, ∃ e ∈ bucketFor ctx.byHash (pdfHash a.1.val),
      e.1.val = a.1.val ∧ e.2.objectNumber = a.2.objectNumber) ∧
  (∀ a1 ∈ ctx.assigned, ∀ a2 ∈ ctx.assigned,
      a1.1.val = a2.1.val → a1.2.objectNumber = a2.2.objectNumber)

theorem bucketFor_bucketInsert (bh : List (Nat × List (WObj × PRef))) (h : Nat)
    (e : WObj × PRef) (k : Nat) :
    bucketFor (bucketInsert bh h e) k =
      if k = h then bucketFor bh k ++ [e] else bucketFor bh k := by
  induction bh with
  | nil =>
      by_cases hk : k = h
      · simp [bucketInsert, bucketFor, List.lookup, hk]
      · simp [bucketInsert, bucketFor, List.lookup, hk,
          show (k == h) = false by simp [hk]]
  | cons p rest ih =>
      obtain ⟨h0, b⟩ := p
      by_cases h0h : h0 = h
      · subst h0h
        by_cases hk : k = h0
        · simp [bucketInsert, bucketFor, List.lookup, hk]
        · simp [bucketInsert, bucketFor, List.lookup, hk,
            show (k == h0) = false by simp [hk]]
      · by_cases hk : k = h0
        · subst hk
          have hkh : ¬(k = h) := h0h
          simp [bucketInsert, bucketFor, List.lookup, h0h, hkh]
        · simp only [bucketInsert, bucketFor, List.lookup, h0h, if_false,
            show (k == h0) = false by simp [hk]] at ih ⊢
          exact ih

theorem getReference_inv (o : WObj) (ctx : WriteCtx) (hinv : CtxInv ctx) :
    CtxInv (getReference o ctx).2 := by
  unfold CtxInv at hinv ⊢
  obtain ⟨inv1, inv2, inv3⟩ := hinv
  unfold getReference
  cases hid : ctx.byId.lookup o.oid with
  | some r => exact ⟨inv1, inv2, inv3⟩
  | none =>
      simp only
      cases hfind : (bucketFor ctx.byHash (pdfHash o.val)).find?
          (fun e => decide (e.1.val = o.val)) with
      | some e0 =>
          simp only
          have he0 : e0 ∈ bucketFor ctx.byHash (pdfHash o.val) :=
            List.mem_of_find?_eq_some hfind
          have he0v : e0.1.val = o.val := by
            have := List.find?_some hfind
            simpa using this
          refine ⟨?_, ?_, ?_⟩
          · intro h e he
            obtain ⟨hmem, hhash⟩ := inv1 h e he
            exact ⟨List.mem_cons_of_mem _ hmem, hhash⟩
          · intro a ha
            rcases List.mem_cons.1 ha with rfl | ha
            · exact ⟨e0, he0, he0v, rfl⟩
            · exact inv2 a ha
          · intro a1 ha1 a2 ha2 hval
            have he0a : e0 ∈ ctx.assigned := (inv1 _ e0 he0).1
            rcases List.mem_cons.1 ha1 with rfl | ha1 <;>
              rcases List.mem_cons.1 ha2 with rfl | ha2
            · rfl
            · exact inv3 e0 he0a a2 ha2 (by simpa [he0v] using hval)
            · exact (inv3 e0 he0a a1 ha1 (by simpa [he0v] using hval.symm)).symm
            · exact inv3 a1 ha1 a2 ha2 hval
      | none =>
          simp only
          have hnone : ∀ e ∈ bucketFor ctx.byHash (pdfHash o.val), e.1.val ≠ o.val := by
            intro e he
            have := List.find?_eq_none.1 hfind e he
            simpa using this
          refine ⟨?_, ?_, ?_⟩
          · intro k e he
            rw [bucketFor_bucketInsert] at he
            by_cases hk : k = pdfHash o.val
            · rw [if_pos hk] at he
              rcases List.mem_append.1 he with he | he
              · obtain ⟨hmem, hhash⟩ := inv1 k e he
                exact ⟨List.mem_cons_of_mem _ hmem, hhash⟩
              · simp only [List.mem_singleton] at he
                subst he
                exact ⟨List.mem_cons_self _ _, hk.symm⟩
            · rw [if_neg hk] at he
              obtain ⟨hmem, hhash⟩ := inv1 k e he
              exact ⟨List.mem_cons_of_mem _ hmem, hhash⟩
          · intro a ha
            rcases List.mem_cons.1 ha with rfl | ha
            · refine ⟨_, ?_, rfl, rfl⟩
              rw [bucketFor_bucketInsert, if_pos rfl]
              exact List.mem_append_right _ (List.mem_singleton_self _)
            · obtain ⟨e, he, hev, hen⟩ := inv2 a ha
              refine ⟨e, ?_, hev, hen⟩
              rw [bucketFor_bucketInsert]
              by_cases hk : pdfHash a.1.val = pdfHash o.val
              · rw [if_pos hk]
                exact List.mem_append_left _ he
              · rw [if_neg hk]
                exact he
          · intro a1 ha1 a2 ha2 hval
            rcases List.mem_cons.1 ha1 with rfl | ha1 <;>
              rcases List.mem_cons.1 ha2 with rfl | ha2
            · rfl
            · obtain ⟨e2, he2, he2v, he2n⟩ := inv2 a2 ha2
              rw [show pdfHash a2.1.val = pdfHash o.val by rw [← hval]] at he2
              exact absurd (he2v.trans hval.symm) (hnone e2 he2)
            · obtain ⟨e1, he1, he1v, he1n⟩ := inv2 a1 ha1
              rw [show pdfHash a1.1.val = pdfHash o.val by rw [hval]] at he1
              exact absurd (he1v.trans hval) (hnone e1 he1)
            · exact inv3 a1 ha1 a2 ha2 hval

theorem emptyWriteCtx_inv : CtxInv emptyWriteCtx := by
  unfold CtxInv
  refine ⟨?_, ?_, ?_⟩
  · intro h e he
    simp [emptyWriteCtx, bucketFor, List.lookup] at he
  · intro a ha
    simp [emptyWriteCtx] at ha
  · intro a1 ha1
    simp [emptyWriteCtx] at ha1

theorem registerAll_inv (objs : List WObj) (ctx : WriteCtx) (hinv : CtxInv ctx) :
    CtxInv (registerAll objs ctx) := by
  induction objs generalizing ctx with
  | nil => exact hinv
  | cons o rest ih => exact ih _ (getReference_inv o ctx hinv)

/-- The two structurally equal but distinct font dictionaries of the
dedup example. -/
def fontVal : PDFValue := .dict [("Type", .name "Font"), ("Subtype", .name "Type1")]

/-- First of the two distinct objects holding `fontVal`. -/
def wobjA : WObj := ⟨1, fontVal⟩

/-- Second of the two distinct objects holding `fontVal`. -/
def wobjB : WObj := ⟨2, fontVal⟩

/-- Claim C2: references assigned by `get_reference` within one write
context give structurally equal objects the same object number, and in
particular two distinct but equal font dictionaries registered in a fresh
context both obtain object number 1. -/
theorem get_reference_dedup :
    (∀ (objs : List WObj) (a b : WObj) (ra rb : PRef),
        (a, ra) ∈ (registerAll objs emptyWriteCtx).assigned →
        (b, rb) ∈ (registerAll objs emptyWriteCtx).assigned →
        a.val = b.val → ra.objectNumber = rb.objectNumber) ∧
    (getReference wobjA emptyWriteCtx).1.objectNumber = 1 ∧
    (getReference wobjB (getReference wobjA emptyWriteCtx).2).1.objectNumber = 1 := by
  refine ⟨?_, rfl, rfl⟩
  intro objs a b ra rb ha hb hval
  have hinv := registerAll_inv objs emptyWriteCtx emptyWriteCtx_inv
  exact hinv.2.2 (a, ra) ha (b, rb) hb hval

/-- Witness for C2: the general dedup statement applied to the concrete
pair of equal dictionaries, whose assigned references are computed
explicitly. -/
theorem get_reference_dedup_witness :
    ((wobjA, (⟨1⟩ : PRef)) ∈ (registerAll [wobjA, wobjB] emptyWriteCtx).assigned) ∧
    ((wobjB, (⟨1⟩ : PRef)) ∈ (registerAll [wobjA, wobjB] emptyWriteCtx).assigned) ∧
    (⟨1⟩ : PRef).objectNumber = (⟨1⟩ : PRef).objectNumber := by
  refine ⟨by decide, by decide, ?_⟩
  exact get_reference_dedup.1 [wobjA, wobjB] wobjA wobjB ⟨1⟩ ⟨1⟩
    (by decide) (by decide) rfl

/-- A text-render event as far as the reading-order comparator inspects it:
the `x` and `y` of its baseline bounding box.  Coordinates are Python
`Decimal` values, i.e. exact decimal fractions, embedded as rationals. -/
structure TextEvent where
  x : ℚ
  y : ℚ
deriving DecidableEq, Repr

/-- Truncation of a rational toward zero, the integer part used by the
`Decimal.__mod__` remainder (Python `Decimal` remainders take the sign of
the dividend, unlike `int` remainders which floor). -/
def qtrunc (q : ℚ) : Int :=
  if 0 ≤ q then ⌊q⌋ else -⌊-q⌋

/-- Python `Decimal` remainder: `a - m * trunc(a / m)`. -/
def decimalMod (a m : ℚ) : ℚ :=
  a - m * (qtrunc (a / m) : ℚ)

/-- Embedding of `LeftToRightComparator.cmp`: band each baseline `y` via
`y - y % 5` (with `Decimal` remainder semantics); equal bands compare by
`x` ascending, distinct bands by banded `y` descending. -/
def ltrCmp (e0 e1 : TextEvent) : ℚ :=
  let y0r := e0.y - decimalMod e0.y 5
  let y1r := e1.y - decimalMod e1.y 5
  if y0r = y1r then e0.x - e1.x else -(y0r - y1r)

/-- Claimed banding: round `y` DOWN to the nearest multiple of 5.  This
definition follows the specification's words and is compared against the
code's comparator. -/
def specRoundDown (y : ℚ) : ℚ := 5 * (⌊y / 5⌋ : ℚ)

/-- Comparator as the specification describes it, with floor banding. -/
def specLtrCmp (e0 e1 : TextEvent) : ℚ :=
  if specRoundDown e0.y = specRoundDown e1.y then e0.x - e1.x
  else -(specRoundDown e0.y - specRoundDown e1.y)

/-- Banding the code actually performs: round `y` toward zero to a
multiple of 5 (equal to rounding down exactly when `y ≥ 0`). -/
def truncRound (y : ℚ) : ℚ := 5 * (qtrunc (y / 5) : ℚ)

/-- Stable insertion of an event into a sorted list under a comparator, as
`sorted(..., key=cmp_to_key(cmp))` would order it. -/
def insertByCmp (cmp : TextEvent → TextEvent → ℚ) (e : TextEvent) :
    List TextEvent → List TextEvent
  | [] => [e]
  | f :: rest => if cmp e f < 0 then e :: f :: rest else f :: insertByCmp cmp e rest

/-- Insertion sort of events under a comparator. -/
def sortByCmp (cmp : TextEvent → TextEvent → ℚ) (l : List TextEvent) : List TextEvent :=
  l.foldr (insertByCmp cmp) []

/-- Counterexample to claim C7 as stated: at baselines `(x=100, y=2)` and
`(x=0, y=-3)` the code's comparator bands both `y` values to `0` (the
`Decimal` remainder truncates toward zero), compares by `x` and returns a
positive number, while the claimed floor banding (`2 → 0`, `-3 → -5`)
would return a negative number — the two orderings disagree. -/
theorem ltr_cmp_not_floor_banding :
    0 < ltrCmp ⟨100, 2⟩ ⟨0, -3⟩ ∧ specLtrCmp ⟨100, 2⟩ ⟨0, -3⟩ < 0 := by
  constructor
  · norm_num [ltrCmp, decimalMod, qtrunc]
  · norm_num [specLtrCmp, specRoundDown]

/-- Claim C7 as amended: the comparator bands each baseline `y` toward
zero to a multiple of 5 (which coincides with rounding down when `y` is
nonnegative); equal bands order by `x` ascending, distinct bands by banded
`y` descending; and the example events `(10,100)`, `(20,100)`, `(5,92)`
sort to exactly that order. -/
theorem ltr_cmp_amended :
    (∀ e0 e1 : TextEvent, ltrCmp e0 e1 =
        if truncRound e0.y = truncRound e1.y then e0.x - e1.x
        else -(truncRound e0.y - truncRound e1.y)) ∧
    (∀ y : ℚ, 0 ≤ y → truncRound y = specRoundDown y) ∧
    sortByCmp ltrCmp [⟨5, 92⟩, ⟨20, 100⟩, ⟨10, 100⟩] =
      [⟨10, 100⟩, ⟨20, 100⟩, ⟨5, 92⟩] := by
  refine ⟨?_, ?_, ?_⟩
  · intro e0 e1
    have h0 : e0.y - decimalMod e0.y 5 = truncRound e0.y := by
      simp [decimalMod, truncRound]
    have h1 : e1.y - decimalMod e1.y 5 = truncRound e1.y := by
      simp [decimalMod, truncRound]
    simp only [ltrCmp, h0, h1]
  · intro y hy
    have hq : 0 ≤ y / 5 := by positivity
    simp [truncRound, specRoundDown, qtrunc, hq]
  · norm_num [sortByCmp, insertByCmp, ltrCmp, decimalMod, qtrunc,
      show ⌊(92 : ℚ) / 5⌋ = 18 by norm_num,
      show ⌊(100 : ℚ) / 5⌋ = 20 by norm_num]

/-- Witness for C7 (amended): the comparator characterization and the
nonnegative-banding statement applied at concrete inputs. -/
theorem ltr_cmp_amended_witness :
    (ltrCmp ⟨10, 100⟩ ⟨5, 92⟩ =
      if truncRound 100 = truncRound 92 then (10 : ℚ) - 5
      else -(truncRound 100 - truncRound 92)) ∧
    (0 ≤ (92 : ℚ)) ∧ truncRound 92 = specRoundDown 92 :=
  ⟨ltr_cmp_amended.1 ⟨10, 100⟩ ⟨5, 92⟩, by norm_num,
    ltr_cmp_amended.2.1 92 (by norm_num)⟩

/-- Errors surfacing from `Canvas.read`. -/
inductive CanvasErr where
  | assertionUnderflow
  | indexError
  | graphicsStateUnderflow
deriving DecidableEq, Repr

/-- State of a `Canvas` as far as the claims inspect it: the compatibility
flag and the graphics-state stack (represented by its depth; `q` pushes a
deep copy, `Q` pops). -/
structure CanvasState where
  compat : Bool
  gsDepth : Nat
deriving DecidableEq, Repr

/-- A token produced by the content-stream tokenizer: either a primitive
operand or an operator name (`CanvasOperatorName`). -/
inductive CToken where
  | operand (v : PDFValue)
  | opName (s : String)

/-- A canvas operator: its advertised arity and its invocation. -/
structure CanvasOp where
  arity : Nat
  invoke : CanvasState → List PDFValue → Except CanvasErr CanvasState

/-- Modelled from the spec: the individual operator implementations are
outside the sampled sources.  Per §4.4, `BX` sets the compatibility flag
and `EX` clears it; `q` pushes a copy of the graphics state and `Q` pops
it, failing on an empty stack; `Tf` takes two operands.  The claims only
exercise these names; other names are absent, as `bar` is in the real
table. -/
def canvasOperators (name : String) : Option CanvasOp :=
  if name = "BX" then some ⟨0, fun s _ => .ok { s with compat := true }⟩
  else if name = "EX" then some ⟨0, fun s _ => .ok { s with compat := false }⟩
  else if name = "q" then some ⟨0, fun s _ => .ok { s with gsDepth := s.gsDepth + 1 }⟩
  else if name = "Q" then some ⟨0, fun s _ =>
    match s.gsDepth with
    | 0 => .error .graphicsStateUnderflow
    | d + 1 => .ok { s with gsDepth := d }⟩
  else if name = "Tf" then some ⟨2, fun s _ => .ok s⟩
  else none

/-- Net effect of the operand-popping loop
(`operands.insert(0, operand_stk.pop(-1))`, `arity` times): take the last
`arity` operands preserving left-to-right order; when the stack holds
fewer, the loop raises `IndexError` (modelled as `none`). -/
def popOperands (stk : List PDFValue) (n : Nat) :
    Option (List PDFValue × List PDFValue) :=
  if n ≤ stk.length then some (stk.drop (stk.length - n), stk.take (stk.length - n))
  else none

/-- Embedding of the body of `Canvas.read`: non-operator tokens are pushed
onto the operand stack; unknown operator names are logged and skipped; the
arity assertion runs only outside a compatibility section; operands are
then popped (raising `IndexError` on exhaustion, outside the `try` block);
the invocation itself runs inside a `try` whose handler re-raises only
outside a compatibility section. -/
def canvasReadLoop : List CToken → CanvasState → List PDFValue →
    Except CanvasErr CanvasState
  | [], c, _ => .ok c
  | .operand v :: ts, c, stk => canvasReadLoop ts c (stk ++ [v])
  | .opName name :: ts, c, stk =>
      match canvasOperators name with
      | none => canvasReadLoop ts c stk
      | some op =>
          if c.compat = false ∧ stk.length < op.arity then .error .assertionUnderflow
          else
            match popOperands stk op.arity with
            | none => .error .indexError
            | some (operands, stk') =>
                match op.invoke c operands with
                | .ok c' => canvasReadLoop ts c' stk'
                | .error e => if c.compat then canvasReadLoop ts c stk' else .error e

/-- Entry point `Canvas.read`: run over the token stream with an empty
operand stack. -/
def canvasRead (tokens : List CToken) (c : CanvasState) : Except CanvasErr CanvasState :=
  canvasReadLoop tokens c []

/-- A freshly constructed canvas: not in a compatibility section, empty
graphics-state stack. -/
def initCanvas : CanvasState := ⟨false, 0⟩

/-- Token stream of the example `BX /Foo bar EX q Q`. -/
def exampleStream : List CToken :=
  [.opName "BX", .operand (.name "Foo"), .opName "bar",
   .opName "EX", .opName "q", .opName "Q"]

/-- Counterexample to claim C5 as stated: inside a compatibility section,
an operand-stack underflow is NOT non-fatal — the popping loop sits
outside the `try` block, so `BX Tf` (arity-2 `Tf`, empty stack,
compatibility mode on) raises `IndexError` out of `Canvas.read`. -/
theorem canvas_compat_underflow_fatal :
    canvasRead [.opName "BX", .opName "Tf"] initCanvas =
      .error CanvasErr.indexError ∧
    ∀ c, canvasRead [.opName "BX", .opName "Tf"] initCanvas ≠ .ok c := by
  refine ⟨rfl, ?_⟩
  intro c h
  rw [show canvasRead [.opName "BX", .opName "Tf"] initCanvas =
    .error CanvasErr.indexError from rfl] at h
  exact absurd h (by simp)

/-- Claim C5 as amended: unknown operator names are always skipped; inside
a compatibility section an exception raised by an operator invocation is
swallowed and execution continues, and the arity assertion is skipped —
but popping more operands than the stack holds still raises `IndexError`
even there; outside a compatibility section both the arity underflow and
the operator exception propagate; and `BX /Foo bar EX q Q` completes
without error. -/
theorem canvas_read_error_policy :
    (∀ (ts : List CToken) (c : CanvasState) (stk : List PDFValue) (name : String),
        canvasOperators name = none →
        canvasReadLoop (.opName name :: ts) c stk = canvasReadLoop ts c stk) ∧
    (∀ (ts : List CToken) (c : CanvasState) (stk : List PDFValue) (name : String)
        (op : CanvasOp) (operands stk' : List PDFValue) (e : CanvasErr),
        c.compat = true → canvasOperators name = some op →
        popOperands stk op.arity = some (operands, stk') →
        op.invoke c operands = .error e →
        canvasReadLoop (.opName name :: ts) c stk = canvasReadLoop ts c stk') ∧
    (∀ (ts : List CToken) (c : CanvasState) (stk : List PDFValue) (name : String)
        (op : CanvasOp),
        c.compat = false → canvasOperators name = some op → stk.length < op.arity →
        canvasReadLoop (.opName name :: ts) c stk = .error .assertionUnderflow) ∧
    (∀ (ts : List CToken) (c : CanvasState) (stk : List PDFValue) (name : String)
        (op : CanvasOp) (operands stk' : List PDFValue) (e : CanvasErr),
        c.compat = false → canvasOperators name = some op →
        popOperands stk op.arity = some (operands, stk') →
        op.invoke c operands = .error e →
        canvasReadLoop (.opName name :: ts) c stk = .error e) ∧
    (∀ (ts : List CToken) (c : CanvasState) (stk : List PDFValue) (name : String)
        (op : CanvasOp),
        c.compat = true → canvasOperators name = some op → stk.length < op.arity →
        canvasReadLoop (.opName name :: ts) c stk = .error .indexError) ∧
    canvasRead exampleStream initCanvas = .ok initCanvas := by
  refine ⟨?_, ?_, ?_, ?_, ?_, rfl⟩
  · intro ts c stk name hname
    simp [canvasReadLoop, hname]
  · intro ts c stk name op operands stk' e hc hname hpop hinv
    simp [canvasReadLoop, hname, hc, hpop, hinv]
  · intro ts c stk name op hc hname hlen
    simp [canvasReadLoop, hname, hc, hlen]
  · intro ts c stk name op operands stk' e hc hname hpop hinv
    have hlen : ¬ stk.length < op.arity := by
      intro hlt
      simp [popOperands, Nat.not_le.2 hlt] at hpop
    simp [canvasReadLoop, hname, hc, hlen, hpop, hinv]
  · intro ts c stk name op hc hname hlen
    have hpop : popOperands stk op.arity = none := by
      simp [popOperands, Nat.not_le.2 hlen]
    simp [canvasReadLoop, hname, hc, hpop]

/-- Witness for C5 (amended): each general conjunct applied at a concrete
instance — unknown `bar` skipped, a failing `Q` swallowed in compatibility
mode and propagated outside it, `Tf` underflow outside compatibility mode
asserting and inside compatibility mode raising `IndexError`. -/
theorem canvas_read_error_policy_witness :
    (canvasReadLoop [.opName "bar"] initCanvas [] = canvasReadLoop [] initCanvas []) ∧
    (canvasReadLoop [.opName "Q"] ⟨true, 0⟩ [] = canvasReadLoop [] ⟨true, 0⟩ []) ∧
    (canvasReadLoop [.opName "Tf"] initCanvas [] = .error .assertionUnderflow) ∧
    (canvasReadLoop [.opName "Q"] ⟨false, 0⟩ [] = .error .graphicsStateUnderflow) ∧
    (canvasReadLoop [.opName "Tf"] ⟨true, 0⟩ [] = .error .indexError) := by
  refine ⟨?_, ?_, ?_, ?_, ?_⟩
  · exact canvas_read_error_policy.1 [] initCanvas [] "bar" rfl
  · exact canvas_read_error_policy.2.1 [] ⟨true, 0⟩ [] "Q"
      ⟨0, fun s _ => match s.gsDepth with
        | 0 => .error .graphicsStateUnderflow
        | d + 1 => .ok { s with gsDepth := d }⟩ [] [] .graphicsStateUnderflow
      rfl rfl rfl rfl
  · exact canvas_read_error_policy.2.2.1 [] initCanvas [] "Tf"
      ⟨2, fun s _ => .ok s⟩ rfl rfl (by decide)
  · exact canvas_read_error_policy.2.2.2.1 [] ⟨false, 0⟩ [] "Q"
      ⟨0, fun s _ => match s.gsDepth with
        | 0 => .error .graphicsStateUnderflow
        | d + 1 => .ok { s with gsDepth := d }⟩ [] [] .graphicsStateUnderflow
      rfl rfl rfl rfl
  · exact canvas_read_error_policy.2.2.2.2.1 [] ⟨true, 0⟩ [] "Tf"
      ⟨2, fun s _ => .ok s⟩ rfl rfl (by decide)

/-- Generic lookup in an insertion-ordered association table (Python
`dict.get`). -/
def alookup {α β : Type} [DecidableEq α] : List (α × β) → α → Option β
  | [], _ => none
  | (k, v) :: rest, key => if k = key then some v else alookup rest key

/-- Generic item assignment in an association table. -/
def aset {α β : Type} [DecidableEq α] : List (α × β) → α → β → List (α × β)
  | [], key, v => [(key, v)]
  | (k, w) :: rest, key, v =>
      if k = key then (k, v) :: rest else (k, w) :: aset rest key v

/-- Python dict-comprehension inversion `{v: k for k, v in table.items()}`:
later pairs overwrite earlier ones with the same value. -/
def invertTable (tbl : List (Int × String)) : List (String × Int) :=
  tbl.foldl (fun acc kv => aset acc kv.2 kv.1) []

/-- Modelled from the spec: the Windows-1252 codec consumed from the
Python standard library.  Bytes `0x00-0x7F` and `0xA0-0xFF` decode to
their own code point, `0x80-0x9F` via the Windows block; the five
positions `0x81, 0x8D, 0x8F, 0x90, 0x9D` are undefined and make a strict
decode raise. -/
def cp1252Codepoint (b : Nat) : Option Nat :=
  if b = 0x80 then some 0x20AC
  else if b = 0x81 then none
  else if b = 0x82 then some 0x201A
  else if b = 0x83 then some 0x0192
  else if b = 0x84 then some 0x201E
  else if b = 0x85 then some 0x2026
  else if b = 0x86 then some 0x2020
  else if b = 0x87 then some 0x2021
  else if b = 0x88 then some 0x02C6
  else if b = 0x89 then some 0x2030
  else if b = 0x8A then some 0x0160
  else if b = 0x8B then some 0x2039
  else if b = 0x8C then some 0x0152
  else if b = 0x8D then none
  else if b = 0x8E then some 0x017D
  else if b = 0x8F then none
  else if b = 0x90 then none
  else if b = 0x91 then some 0x2018
  else if b = 0x92 then some 0x2019
  else if b = 0x93 then some 0x201C
  else if b = 0x94 then some 0x201D
  else if b = 0x95 then some 0x2022
  else if b = 0x96 then some 0x2013
  else if b = 0x97 then some 0x2014
  else if b = 0x98 then some 0x02DC
  else if b = 0x99 then some 0x2122
  else if b = 0x9A then some 0x0161
  else if b = 0x9B then some 0x203A
  else if b = 0x9C then some 0x0153
  else if b = 0x9D then none
  else if b = 0x9E then some 0x017E
  else if b = 0x9F then some 0x0178
  else if b < 256 then some b
  else none

/-- Decode one byte with the cp1252 codec; `none` models the raised
`UnicodeDecodeError` of a strict decode. -/
def cp1252Decode (b : Nat) : Option String :=
  (cp1252Codepoint b).map (fun n => String.mk [Char.ofNat n])

/-- Modelled from the spec: the Mac Roman codec is total on single bytes
(every byte position is defined); the precise code points above `0x7F` are
irrelevant to the claims, so bytes map to their own code point. -/
def macRomanDecode (b : Nat) : Option String :=
  if b < 256 then some (String.mk [Char.ofNat b]) else none

/-- Modelled from the spec: `adobe_standard_decode` consumes the bundled
Adobe Standard Encoding table and never raises; approximated by printable
ASCII (the claims never rest on a particular glyph of this table). -/
def adobeStandardDecode (b : Nat) : String :=
  if 0x20 ≤ b ∧ b ≤ 0x7E then String.mk [Char.ofNat b] else ""

/-- Encode a string bytewise; `none` models a raised encode error. -/
def encodeWith (enc : Char → Option Nat) (s : String) : Option (List Nat) :=
  s.toList.foldr (fun c acc => (enc c).bind fun b => acc.map (fun bs => b :: bs))
    (some [])

/-- Inverse of `cp1252Codepoint`: the first byte decoding to the given
character. -/
def cp1252EncodeChar (c : Char) : Option Nat :=
  (List.range 256).find? (fun b => cp1252Codepoint b = some c.toNat)

/-- The cp1252 encoder (`str.encode("cp1252")`). -/
def cp1252Encode (s : String) : Option (List Nat) :=
  encodeWith cp1252EncodeChar s

/-- Modelled from the spec: the Mac Roman encoder, inverse of the decode
model above. -/
def macRomanEncode (s : String) : Option (List Nat) :=
  encodeWith (fun c => if c.toNat < 256 then some c.toNat else none) s

/-- Modelled from the spec: `adobe_standard_encode`, inverse of
`adobeStandardDecode`. -/
def adobeStandardEncode (s : String) : Option (List Nat) :=
  encodeWith (fun c => if 0x20 ≤ c.toNat ∧ c.toNat ≤ 0x7E then some c.toNat else none) s

/-- All-digit prefix value of Python `int()` applied to a byte string: the
bytes must spell a decimal literal (an optional sign followed by digits),
otherwise `ValueError` (`none`).  This is the slip the round-trip claim
runs into: `int(b"A")` raises while `int(b"3")` parses to 3, neither being
the byte's value. -/
def digitsValue (ds : List Nat) : Option Nat :=
  if ds ≠ [] ∧ ds.all (fun b => 0x30 ≤ b ∧ b ≤ 0x39) then
    some (ds.foldl (fun a b => a * 10 + (b - 0x30)) 0)
  else none

/-- Python `int()` on a byte string. -/
def pythonIntOfBytes (bs : List Nat) : Option Int :=
  match bs with
  | 0x2D :: rest => (digitsValue rest).map (fun n => -(n : Int))
  | _ => (digitsValue bs).map (fun n => (n : Int))

/-- Modelled from the spec: `fontTools.agl.toUnicode` maps a glyph name to
a unicode string, empty when unknown; approximated by single-letter glyph
names naming themselves (the claims never rest on a particular AGL
entry). -/
def aglToUnicode (n : String) : String :=
  if n.length = 1 then n else ""

/-- Python `str()` of a PDF value, as applied to `Differences` entries
(glyph names). -/
def pdfValueStr : PDFValue → String
  | .name s => s
  | .str s => s
  | _ => ""

/-- Exceptions escaping the Type-1 font resolution. -/
inductive FontErr where
  | valueError
  | unicodeDecodeError
  | assertionError
  | keyError
deriving DecidableEq, Repr

deriving instance DecidableEq for Except

/-- State of a `Type1Font`: its dictionary and the two memoized lookup
tables.  The `ToUnicode` entry is represented by its parsed
`cid → unicode` table (`_read_cmap` of `SimpleFont` is not among the
sampled sources; per the spec the decoded CMap bytes parse into exactly
such a table), with `isSome` standing for `"ToUnicode" in self`. -/
structure Type1Font where
  dict : List (String × PDFValue)
  toUnicodeCMap : Option (List (Int × String))
  cidToUni : List (Int × String)
  uniToCid : List (String × Int)
deriving DecidableEq, Repr

/-- Embedding of `Type1Font._read_to_unicode`: memoized on the reverse
table being nonempty; otherwise parse the CMap into the forward table and
invert it. -/
def readToUnicode (f : Type1Font) : Type1Font :=
  if f.uniToCid ≠ [] then f
  else
    match f.toUnicodeCMap with
    | some tbl => { f with cidToUni := tbl, uniToCid := invertTable tbl }
    | none => f

/-- The four predefined encoding names, in the order the source lists
them. -/
def encodingNames : List String :=
  ["MacRomanEncoding", "MacExpertEncoding", "WinAnsiEncoding", "StandardEncoding"]

/-- Result of `bytes([cid])` for a cid that already passed the
`cid < 0 or cid > 256` guard: a cid of exactly 256 raises `ValueError`. -/
def byteOfCid (cid : Int) : Except FontErr Nat :=
  if cid < 256 then .ok cid.toNat else .error .valueError

/-- The named-encoding decode chain of `character_identifier_to_unicode`
(no exception handler around it in the source): `WinAnsiEncoding` via
cp1252, `MacRomanEncoding` via Mac Roman, `MacExpertEncoding` falling back
to Mac Roman, `StandardEncoding` via the Adobe table. -/
def namedDecode (enc : String) (b : Nat) : Except FontErr String :=
  if enc = "WinAnsiEncoding" then
    match cp1252Decode b with
    | some s => .ok s
    | none => .error .unicodeDecodeError
  else if enc = "MacRomanEncoding" then
    match macRomanDecode b with
    | some s => .ok s
    | none => .error .unicodeDecodeError
  else if enc = "MacExpertEncoding" then
    match macRomanDecode b with
    | some s => .ok s
    | none => .error .unicodeDecodeError
  else .ok (adobeStandardDecode b)

/-- Walk of the `Differences` array in
`_read_encoding_with_differences`: a numeric entry resets the running
character code; each following name entry assigns
`code → AGL(name)` and increments the code; a leading non-number trips
the `isinstance` assert. -/
def diffsLoop : List PDFValue → Option Int → List (Int × String) →
    Except FontErr (List (Int × String))
  | [], _, acc => .ok acc
  | .number n :: rest, _, acc => diffsLoop rest (some n) acc
  | v :: rest, some code, acc =>
      diffsLoop rest (some (code + 1)) (aset acc code (aglToUnicode (pdfValueStr v)))
  | _ :: _, none, _ => .error .assertionError

/-- Embedding of `Type1Font._read_encoding_with_differences`: memoized on
the reverse table; asserts `FirstChar` and `LastChar` are numbers; walks
`Encoding.Differences` (a missing `Differences` is a `KeyError`); stores
the forward table and its inversion. -/
def readEncodingWithDifferences (f : Type1Font) (encEs : List (String × PDFValue)) :
    Except FontErr Type1Font :=
  if f.uniToCid ≠ [] then .ok f
  else
    match lookupDict f.dict "FirstChar", lookupDict f.dict "LastChar" with
    | some (.number _), some (.number _) =>
        match lookupDict encEs "Differences" with
        | some (.array diffs) =>
            match diffsLoop diffs none [] with
            | .ok tbl => .ok { f with cidToUni := tbl, uniToCid := invertTable tbl }
            | .error e => .error e
        | some _ => .error .assertionError
        | none => .error .keyError
    | _, _ => .error .assertionError

/-- Does the `Encoding` dictionary carry a `BaseEncoding` among the four
predefined names (guard of the `Differences` branch)? -/
def hasBaseEncoding (encEs : List (String × PDFValue)) : Bool :=
  match lookupDict encEs "BaseEncoding" with
  | some (.name be) => be ∈ encodingNames
  | _ => false

/-- Embedding of `Type1Font.character_identifier_to_unicode`: a present
`ToUnicode` CMap answers alone; otherwise a missing `Encoding` is
installed as `StandardEncoding` (a dictionary mutation); a predefined
named encoding decodes the single byte `[cid]` after the
`cid < 0 or cid > 256` guard, with no exception handler; an `Encoding`
dictionary with a predefined `BaseEncoding` answers from the memoized
`Differences` table; anything else yields `None`.  The returned font
carries the state after the call. -/
def charIdToUnicode (f : Type1Font) (cid : Int) :
    Except FontErr (Option String) × Type1Font :=
  match f.toUnicodeCMap with
  | some _ =>
      let f' := readToUnicode f
      (.ok (alookup f'.cidToUni cid), f')
  | none =>
      let f1 := if lookupDict f.dict "Encoding" = none then
          { f with dict := dictSet f.dict "Encoding" (.name "StandardEncoding") }
        else f
      match lookupDict f1.dict "Encoding" with
      | some (.name enc) =>
          if enc ∈ encodingNames then
            if cid < 0 ∨ cid > 256 then (.ok none, f1)
            else
              match byteOfCid cid with
              | .error e => (.error e, f1)
              | .ok b =>
                  match namedDecode enc b with
                  | .ok s => (.ok (some s), f1)
                  | .error e => (.error e, f1)
          else (.ok none, f1)
      | some (.dict encEs) =>
          if hasBaseEncoding encEs then
            if cid < 0 ∨ cid > 256 then (.ok none, f1)
            else
              match readEncodingWithDifferences f1 encEs with
              | .error e => (.error e, f1)
              | .ok f2 => (.ok (alookup f2.cidToUni cid), f2)
          else (.ok none, f1)
      | _ => (.ok none, f1)

/-- The named-encoding arm of `unicode_to_character_identifier`, run
inside `try: ... except: return None`: encode the string with the codec,
then apply Python `int()` to the resulting byte string; every failure
collapses to `None`. -/
def namedEncodeToCid (enc : String) (u : String) : Option Int :=
  if enc = "WinAnsiEncoding" then (cp1252Encode u).bind pythonIntOfBytes
  else if enc = "MacRomanEncoding" then (macRomanEncode u).bind pythonIntOfBytes
  else if enc = "MacExpertEncoding" then (macRomanEncode u).bind pythonIntOfBytes
  else if enc = "StandardEncoding" then (adobeStandardEncode u).bind pythonIntOfBytes
  else none

/-- Embedding of `Type1Font.unicode_to_character_identifier`: a present
`ToUnicode` CMap answers from the inverted table; otherwise a missing
`Encoding` is installed as `StandardEncoding`; a predefined named encoding
goes through the guarded encode-then-`int` arm; the `Differences` branch
answers from the inverted memoized table (its asserts are NOT inside the
`try`); anything else yields `None`. -/
def unicodeToCharId (f : Type1Font) (u : String) :
    Except FontErr (Option Int) × Type1Font :=
  match f.toUnicodeCMap with
  | some _ =>
      let f' := readToUnicode f
      (.ok (alookup f'.uniToCid u), f')
  | none =>
      let f1 := if lookupDict f.dict "Encoding" = none then
          { f with dict := dictSet f.dict "Encoding" (.name "StandardEncoding") }
        else f
      match lookupDict f1.dict "Encoding" with
      | some (.name enc) =>
          if enc ∈ encodingNames then (.ok (namedEncodeToCid enc u), f1)
          else (.ok none, f1)
      | some (.dict encEs) =>
          if hasBaseEncoding encEs then
            match readEncodingWithDifferences f1 encEs with
            | .error e => (.error e, f1)
            | .ok f2 => (.ok (alookup f2.uniToCid u), f2)
          else (.ok none, f1)
      | _ => (.ok none, f1)

/-- A fresh non-standard Type-1 font with `Encoding = WinAnsiEncoding` and
no `ToUnicode`. -/
def winAnsiFont : Type1Font :=
  ⟨[("Type", .name "Font"), ("Subtype", .name "Type1"),
    ("Encoding", .name "WinAnsiEncoding")], none, [], []⟩

/-- Claim C3 fails on the code: with `Encoding = WinAnsiEncoding`,
`character_identifier_to_unicode 0x41` yields `"A"`, but the reverse map
computes `int("A".encode("cp1252"))` — `int(b"A")` raises `ValueError`,
the bare `except` turns it into `None`, and the round trip is broken. -/
theorem type1_roundtrip_fails :
    (charIdToUnicode winAnsiFont 65).1 = .ok (some "A") ∧
    (unicodeToCharId winAnsiFont "A").1 = .ok none ∧
    (unicodeToCharId winAnsiFont "A").1 ≠ .ok (some 65) := by
  refine ⟨by decide, by decide, by decide⟩

/-- Claim C4 fails on the code: `character_identifier_to_unicode` has no
exception handler, so the undefined cp1252 byte `0x81` raises
`UnicodeDecodeError` to the caller, and the guard `cid > 256` admits 256,
for which `bytes([256])` raises `ValueError`. -/
theorem type1_decode_raises :
    (charIdToUnicode winAnsiFont 129).1 = .error .unicodeDecodeError ∧
    (charIdToUnicode winAnsiFont 256).1 = .error .valueError := by
  refine ⟨by decide, by decide⟩

/-- Claim C6: when a `ToUnicode` CMap is present (and the memo cache is in
its fresh state), `character_identifier_to_unicode` answers exclusively
from the parsed CMap table, whatever the `Encoding` entry says. -/
theorem to_unicode_cmap_exclusive (f : Type1Font) (tbl : List (Int × String)) (cid : Int)
    (htu : f.toUnicodeCMap = some tbl) (hfresh : f.uniToCid = []) :
    (charIdToUnicode f cid).1 = .ok (alookup tbl cid) := by
  simp [charIdToUnicode, readToUnicode, htu, hfresh]

/-- A font carrying both a `ToUnicode` CMap (mapping only `0x42`) and
`Encoding = WinAnsiEncoding`. -/
def cmapFont : Type1Font :=
  ⟨[("Encoding", .name "WinAnsiEncoding")], some [(66, "B")], [], []⟩

/-- Witness for C6: the cid `0x41` is absent from the CMap, so the lookup
yields `None` even though WinAnsiEncoding would decode `0x41` to `"A"`. -/
theorem to_unicode_cmap_exclusive_witness :
    (charIdToUnicode cmapFont 65).1 = .ok (alookup [((66 : Int), "B")] 65) ∧
    (charIdToUnicode cmapFont 65).1 = .ok none ∧
    cp1252Decode 65 = some "A" := by
  refine ⟨to_unicode_cmap_exclusive cmapFont [(66, "B")] 65 rfl rfl, ?_, by decide⟩
  rw [to_unicode_cmap_exclusive cmapFont [(66, "B")] 65 rfl rfl]
  decide

/-- Claim C10: on a font with neither `ToUnicode` nor `Encoding`, both
lookup directions insert `Encoding = StandardEncoding` into the font
dictionary (appended, so every other entry is untouched), and that is the
only dictionary change. -/
theorem implicit_standard_encoding_frame (f : Type1Font) (cid : Int) (u : String)
    (htu : f.toUnicodeCMap = none) (henc : lookupDict f.dict "Encoding" = none) :
    (charIdToUnicode f cid).2 =
      { f with dict := dictSet f.dict "Encoding" (.name "StandardEncoding") } ∧
    (unicodeToCharId f u).2 =
      { f with dict := dictSet f.dict "Encoding" (.name "StandardEncoding") } ∧
    (∀ k, k ≠ "Encoding" →
      lookupDict (charIdToUnicode f cid).2.dict k = lookupDict f.dict k) := by
  have hlk : lookupDict (dictSet f.dict "Encoding" (.name "StandardEncoding"))
      "Encoding" = some (.name "StandardEncoding") :=
    lookup_dictSet_self f.dict "Encoding" _
  have h1 : (charIdToUnicode f cid).2 =
      { f with dict := dictSet f.dict "Encoding" (.name "StandardEncoding") } := by
    by_cases hcid : cid < 0 ∨ cid > 256
    · simp [charIdToUnicode, htu, henc, hlk, encodingNames, hcid]
    · by_cases hb : cid < 256
      · simp [charIdToUnicode, htu, henc, hlk, encodingNames, hcid, byteOfCid, hb,
          namedDecode]
      · simp [charIdToUnicode, htu, henc, hlk, encodingNames, hcid, byteOfCid, hb,
          namedDecode]
  have h2 : (unicodeToCharId f u).2 =
      { f with dict := dictSet f.dict "Encoding" (.name "StandardEncoding") } := by
    simp [unicodeToCharId, htu, henc, hlk, encodingNames]
  refine ⟨h1, h2, ?_⟩
  intro k hk
  rw [h1]
  exact lookup_dictSet_ne f.dict "Encoding" k _ hk

/-- A font with neither `ToUnicode` nor `Encoding`. -/
def bareFont : Type1Font :=
  ⟨[("Type", .name "Font"), ("Subtype", .name "Type1")], none, [], []⟩

/-- Witness for C10 at a concrete bare font and cid `0x41`. -/
theorem implicit_standard_encoding_frame_witness :
    (charIdToUnicode bareFont 65).2 =
      { bareFont with
        dict := dictSet bareFont.dict "Encoding" (.name "StandardEncoding") } ∧
    lookupDict (charIdToUnicode bareFont 65).2.dict "Type" =
      lookupDict bareFont.dict "Type" := by
  have h := implicit_standard_encoding_frame bareFont 65 "A" rfl rfl
  exact ⟨h.1, h.2.2 "Type" (by decide)⟩

/-- The fixed standard-14 name list of `StandardType1Font`. -/
def STANDARD_14_FONT_NAMES : List String :=
  ["Courier", "Courier-Bold", "Courier-Bold-Oblique", "Courier-Oblique",
   "Helvetica", "Helvetica-Bold", "Helvetica-Bold-Oblique", "Helvetica-Oblique",
   "Symbol", "Times-Bold", "Times-Bold-Italic", "Times-Italic",
   "Times-Roman", "ZapfDingbats"]

/-- Embedding of the inner `_to_lower_and_alpha`: lowercase, then keep
only the twenty-six ASCII letters. -/
def toLowerAndAlpha (x : String) : String :=
  String.mk ((x.toList.map Char.toLower).filter
    (fun c => c ∈ "abcdefghijklmnopqrstuvwxyz".toList))

/-- Embedding of `StandardType1Font._canonical_name`: the first standard
name whose canonical form matches the input's canonical form. -/
def canonicalName (fontName : String) : Option String :=
  STANDARD_14_FONT_NAMES.find? (fun n => toLowerAndAlpha n = toLowerAndAlpha fontName)

/-- Claim C9: the three spellings of Helvetica-Bold all canonicalize to
`Helvetica-Bold`, and `Arial` resolves to nothing. -/
theorem standard14_canonicalization :
    canonicalName "helveticabold" = some "Helvetica-Bold" ∧
    canonicalName "Helvetica-Bold" = some "Helvetica-Bold" ∧
    canonicalName "HELVETICA BOLD" = some "Helvetica-Bold" ∧
    canonicalName "Arial" = none := by
  refine ⟨by decide, by decide, by decide, by decide⟩

end Borb
